import Mathlib

/-!
Verification development for the `ymmp` patcher (`src/patcher.ts`).

The stateful TypeScript code is embedded shallowly: byte buffers become
`List Nat`, the filesystem becomes explicit records threaded through pure
functions, and fallible or possibly diverging operations return `Option` /
`Except`.  Each definition mirrors the source function it is named after.
-/

namespace Ymmp

/-! ## Byte-buffer scanning primitives

`Buffer.indexOf(pat, offset)` and the in-place overwrite `newBuf.copy(buf, idx)`
used by `bypassIntegrityWin` (patcher.ts lines 250-266). -/

/-- First index of `buf` at which `pat` occurs as a contiguous sublist
(`Buffer.indexOf(pat)`); `none` when there is no occurrence. -/
def firstMatch {α : Type} [DecidableEq α] (buf pat : List α) : Option Nat :=
  match buf with
  | [] => if pat.isEmpty then some 0 else none
  | b :: rest =>
    if pat.isPrefixOf (b :: rest) then some 0
    else (firstMatch rest pat).map (· + 1)

/-- `Buffer.indexOf(pat, offset)`: first occurrence of `pat` in `buf` at an
index `≥ offset`. -/
def indexOfFrom {α : Type} [DecidableEq α] (buf pat : List α) (offset : Nat) : Option Nat :=
  (firstMatch (buf.drop offset) pat).map (· + offset)

/-- `new.copy(buf, idx)`: overwrite `buf` starting at `idx` with the bytes of
`new`, clipped at the end of `buf`; the length of `buf` never changes. -/
def replaceAt {α : Type} (buf new : List α) (idx : Nat) : List α :=
  buf.take idx ++ new.take (buf.length - idx) ++ buf.drop (idx + new.length)

/-- The scan-and-replace loop of `bypassIntegrityWin` (patcher.ts 259-265):
repeatedly find the next occurrence of `oldB` at or after `offset`, overwrite
it with `newB`, and resume searching right after the overwritten region.
`fuel` bounds the number of iterations; `none` means the fuel ran out (the
source loop would still be running). -/
def replaceLoop {α : Type} [DecidableEq α] (oldB newB : List α) :
    Nat → List α → Nat → Option (List α)
  | 0, _, _ => none
  | fuel + 1, buf, offset =>
    match indexOfFrom buf oldB offset with
    | none => some buf
    | some idx => replaceLoop oldB newB fuel (replaceAt buf newB idx) (idx + oldB.length)

/-! ## `bypassIntegrityWin` (patcher.ts 234-267)

The executable and its `.backup` sibling are the only files this function
touches; hash strings are embedded as their lists of character codes and
`Buffer.from(s, "ascii")` masks each code to 7 bits. -/

/-- `Buffer.from(s, "ascii")`: each character code masked to 7 bits. -/
def asciiEncode (s : List Nat) : List Nat :=
  s.map (fun c => c % 128)

/-- The two files `bypassIntegrityWin` can read or write: the executable at
`ymExePath` and its backup at `ymExePath + ".backup"`; `none` means the file
does not exist. -/
structure ExeFs where
  exe : Option (List Nat)
  backup : Option (List Nat)
deriving DecidableEq

/-- How a `bypassIntegrityWin` call ended. -/
inductive WinPatchOutcome where
  | skipped
  | warned
  | patched
deriving DecidableEq

/-- `bypassIntegrityWin(oldHash, newHash)` (patcher.ts 234-267).
`hasExePath` is whether `this.ymExePath` is non-null.  Returns the final
file state together with `some` outcome, or `none` in the second component
when the replacement loop never terminates (only possible for an empty
`oldHash`); in that case the first component is the state at loop entry
(the backup write has already happened, the rewritten buffer has not been
persisted). -/
def bypassIntegrityWin (hasExePath : Bool) (oldHash newHash : List Nat)
    (fs : ExeFs) : ExeFs × Option WinPatchOutcome :=
  match fs.exe with
  | none => (fs, some WinPatchOutcome.skipped)
  | some fileBuffer =>
    if hasExePath = false ∨ oldHash = newHash then (fs, some WinPatchOutcome.skipped)
    else
      let fs1 : ExeFs := { fs with backup := some (fs.backup.getD fileBuffer) }
      let oldBuf := asciiEncode oldHash
      let newBuf := asciiEncode newHash
      if indexOfFrom fileBuffer oldBuf 0 = none then (fs1, some WinPatchOutcome.warned)
      else
        match replaceLoop oldBuf newBuf (fileBuffer.length + 1) fileBuffer 0 with
        | none => (fs1, none)
        | some r => ({ fs1 with exe := some r }, some WinPatchOutcome.patched)

/-! ## Patch orchestration (patcher.ts 148-324, 374-382)

The filesystem slice that `patch()` reads or writes: the live archive at
`ymAsarPath`, the Windows executable and its backup, and the files in the
temp directory `<cache>/temp` keyed by basename. -/

/-- `str.endsWith(suffix)` on the underlying character lists. -/
def endsWithStr (s suffix : String) : Bool :=
  suffix.data.isSuffixOf s.data

/-- Read a file of the temp directory (`none` = absent). -/
def tmpLookup (tmp : List (String × List Nat)) (k : String) : Option (List Nat) :=
  match tmp.find? (fun e => e.1 == k) with
  | some e => some e.2
  | none => none

/-- Write (create or overwrite) a file of the temp directory. -/
def tmpWrite (tmp : List (String × List Nat)) (k : String) (v : List Nat) :
    List (String × List Nat) :=
  (k, v) :: tmp.filter (fun e => !(e.1 == k))

/-- The filesystem slice visible to `patch()`. -/
structure Fs where
  asar : Option (List Nat)
  exe : Option (List Nat)
  exeBackup : Option (List Nat)
  tmp : List (String × List Nat)
deriving DecidableEq

/-- `os.platform()` restricted to the three supported values. -/
inductive Platform where
  | win32
  | darwin
  | linux
deriving DecidableEq

/-- `options.patchType`. -/
inductive PatchType where
  | default
  | devtoolsOnly
deriving DecidableEq

/-- A release asset as provided by the GitHub collaborator (github.ts). -/
structure ReleaseAsset where
  name : String
  browser_download_url : String
  size : Nat
deriving DecidableEq

/-- Release metadata as provided by the GitHub collaborator. -/
structure ReleaseMetadata where
  assets : List ReleaseAsset
deriving DecidableEq

/-- The errors `patch()` can throw, one per distinct `throw` site reachable
in the model. -/
inductive PatchError where
  | installNotFound
  | noPermission
  | processRunning
  | assetNotFound
  | downloadFailed
  | unzipFailed
  | fileMissing
deriving DecidableEq

/-- Everything `patch()` consumes from outside the filesystem slice:
options, the access-check outcome, the running-process list, the release
metadata, and the network / zlib / hashing collaborators as functions
(`none` = the corresponding call rejects). -/
structure PatchEnv where
  platform : Platform
  patchType : PatchType
  useCache : Bool
  keepCache : Bool
  force : Bool
  writable : Bool
  processes : List Int
  release : ReleaseMetadata
  net : String → Option (List Nat)
  unzip : List Nat → Option (List Nat)
  hashFn : List Nat → List Nat

/-- The asset-name stem for a patch variant (patcher.ts 273-274). -/
def assetBaseName : PatchType → String
  | PatchType.default => "app.asar"
  | PatchType.devtoolsOnly => "appDevTools.asar"

/-- Asset resolution (patcher.ts 275-277): first asset named
`<stem>.gz`, otherwise first asset named `<stem>`. -/
def resolveAsset (assets : List ReleaseAsset) (t : PatchType) : Option ReleaseAsset :=
  match assets.find? (fun a => a.name == assetBaseName t ++ ".gz") with
  | some a => some a
  | none => assets.find? (fun a => a.name == assetBaseName t)

/-- The streamed-download branch of `downloadModFiles` (patcher.ts 297-317):
write the received bytes to `<tmp>/<asset.name>` and, for a `.gz` asset,
decompress them into `<tmp>/app.asar`. -/
def downloadAssetNow (env : PatchEnv) (asset : ReleaseAsset) (fs : Fs) :
    Bool × Except (PatchError × Fs) Fs :=
  match env.net asset.browser_download_url with
  | none => (true, Except.error (PatchError.downloadFailed, fs))
  | some bytes =>
    if endsWithStr asset.name ".gz" then
      match env.unzip bytes with
      | none => (true, Except.error (PatchError.unzipFailed,
          { fs with tmp := tmpWrite fs.tmp asset.name bytes }))
      | some d => (true, Except.ok
          { fs with tmp := tmpWrite (tmpWrite fs.tmp asset.name bytes) "app.asar" d })
    else (true, Except.ok { fs with tmp := tmpWrite fs.tmp asset.name bytes })

/-- Download / cache-reuse of one resolved asset (patcher.ts 281-317).
The `Bool` records whether the network collaborator was consulted; the
`Except` carries the filesystem at the failure point on error. -/
def fetchAsset (env : PatchEnv) (asset : ReleaseAsset) (fs : Fs) :
    Bool × Except (PatchError × Fs) Fs :=
  if env.useCache then
    match tmpLookup fs.tmp asset.name with
    | some c =>
      if c.length = asset.size then
        if endsWithStr asset.name ".gz" then
          match env.unzip c with
          | none => (false, Except.error (PatchError.unzipFailed, fs))
          | some d => (false, Except.ok { fs with tmp := tmpWrite fs.tmp "app.asar" d })
        else (false, Except.ok fs)
      else downloadAssetNow env asset fs
    | none => downloadAssetNow env asset fs
  else downloadAssetNow env asset fs

/-- `downloadModFiles` (patcher.ts 269-318): resolve the asset for the
requested variant, then reuse the cache or download. -/
def downloadModFiles (env : PatchEnv) (fs : Fs) : Bool × Except (PatchError × Fs) Fs :=
  match resolveAsset env.release.assets env.patchType with
  | none => (false, Except.error (PatchError.assetNotFound, fs))
  | some asset => fetchAsset env asset fs

/-- `createBackup` (patcher.ts 215-220): copy the live archive to
`<tmp>/app.asar.backup`. -/
def createBackup (fs : Fs) : Except (PatchError × Fs) Fs :=
  match fs.asar with
  | none => Except.error (PatchError.fileMissing, fs)
  | some a => Except.ok { fs with tmp := tmpWrite fs.tmp "app.asar.backup" a }

/-- `replaceAsar` (patcher.ts 222-224): copy `<tmp>/app.asar` onto the live
archive. -/
def replaceAsar (fs : Fs) : Except (PatchError × Fs) Fs :=
  match tmpLookup fs.tmp "app.asar" with
  | none => Except.error (PatchError.fileMissing, fs)
  | some c => Except.ok { fs with asar := some c }

/-- `clearCaches(forced)` (patcher.ts 374-382): delete every temp file,
except that files ending in `.backup` survive an unforced clear. -/
def clearCaches (forced : Bool) (fs : Fs) : Fs :=
  { fs with tmp := fs.tmp.filter (fun e => !forced && endsWithStr e.1 ".backup") }

/-- `bypassIntegrityWin` lifted to the full filesystem slice (on Windows
`ymExePath` is always non-null, patcher.ts 100-104). -/
def bypassWinOnFs (oldH newH : List Nat) (fs : Fs) : Fs × Option WinPatchOutcome :=
  let r := bypassIntegrityWin true oldH newH { exe := fs.exe, backup := fs.exeBackup }
  ({ fs with exe := r.1.exe, exeBackup := r.1.backup }, r.2)

/-- How a `patch()` run ends: normal completion, a thrown error, or (only
via a degenerate empty hash) a forever-running integrity loop.  Every
constructor carries the filesystem state at that point. -/
inductive PatchOutcome where
  | ok : Fs → PatchOutcome
  | err : PatchError → Fs → PatchOutcome
  | hung : Fs → PatchOutcome
deriving DecidableEq

/-- `patch()` (patcher.ts 148-205): access check, process gate,
fingerprint-before (Windows), download, backup, replace,
fingerprint-after and integrity patch (Windows), cache clear. -/
def patch (env : PatchEnv) (fs : Fs) : PatchOutcome :=
  match fs.asar with
  | none => PatchOutcome.err PatchError.installNotFound fs
  | some asar0 =>
    if env.writable = false then PatchOutcome.err PatchError.noPermission fs
    else if env.processes ≠ [] ∧ env.force = false then
      PatchOutcome.err PatchError.processRunning fs
    else
      let originalHash := if env.platform = Platform.win32 then env.hashFn asar0 else []
      match (downloadModFiles env fs).2 with
      | Except.error (e, fs1) => PatchOutcome.err e fs1
      | Except.ok fs1 =>
        match createBackup fs1 with
        | Except.error (e, fs2) => PatchOutcome.err e fs2
        | Except.ok fs2 =>
          match replaceAsar fs2 with
          | Except.error (e, fs3) => PatchOutcome.err e fs3
          | Except.ok fs3 =>
            let step :=
              if env.platform = Platform.win32 then
                bypassWinOnFs originalHash (env.hashFn (fs3.asar.getD [])) fs3
              else (fs3, some WinPatchOutcome.skipped)
            match step.2 with
            | none => PatchOutcome.hung step.1
            | some _ =>
              PatchOutcome.ok (if env.keepCache = false then clearCaches false step.1 else step.1)

/-! ## `getYandexMusicProcesses` (patcher.ts 326-353)

The `stdout` of the enumeration command is parsed purely; an exec failure
(tool absent, non-zero exit) is the `none` input, swallowed by the
`try`/`catch`. -/

/-- `str.trim()`: strip leading and trailing whitespace. -/
def trimChars (l : List Char) : List Char :=
  ((l.dropWhile Char.isWhitespace).reverse.dropWhile Char.isWhitespace).reverse

/-- `str.split(sep)` for a one-character separator. -/
def splitOnChar (c : Char) : List Char → List (List Char)
  | [] => [[]]
  | x :: xs =>
    let r := splitOnChar c xs
    if x = c then [] :: r
    else
      match r with
      | [] => [[x]]
      | h :: t => (x :: h) :: t

/-- Worker for `splitOnSep`, with fuel bounding the number of separator
occurrences consumed. -/
def splitOnSepAux (sep : List Char) : Nat → List Char → List (List Char)
  | 0, l => [l]
  | fuel + 1, l =>
    match firstMatch l sep with
    | none => [l]
    | some j => l.take j :: splitOnSepAux sep fuel (l.drop (j + sep.length))

/-- `str.split(sep)` for a multi-character separator: cut at each
left-to-right non-overlapping occurrence of `sep`. -/
def splitOnSep (sep l : List Char) : List (List Char) :=
  if sep.isEmpty then [l] else splitOnSepAux sep (l.length + 1) l

/-- Decimal digit value of a character, `none` for a non-digit. -/
def decVal (c : Char) : Option Nat :=
  if 48 ≤ c.toNat ∧ c.toNat ≤ 57 then some (c.toNat - 48) else none

/-- Hexadecimal digit value of a character, `none` for a non-hex-digit. -/
def hexVal (c : Char) : Option Nat :=
  if 48 ≤ c.toNat ∧ c.toNat ≤ 57 then some (c.toNat - 48)
  else if 97 ≤ c.toNat ∧ c.toNat ≤ 102 then some (c.toNat - 87)
  else if 65 ≤ c.toNat ∧ c.toNat ≤ 70 then some (c.toNat - 55)
  else none

/-- Consume leading digits, folding them into an accumulator; stops at the
first non-digit. -/
def parseDigitsAcc (valOf : Char → Option Nat) (base : Nat) : List Char → Nat → Nat
  | [], acc => acc
  | c :: r, acc =>
    match valOf c with
    | some v => parseDigitsAcc valOf base r (acc * base + v)
    | none => acc

/-- Whether the list starts with a digit recognised by `valOf`. -/
def hasLeadingDigit (valOf : Char → Option Nat) : List Char → Bool
  | [] => false
  | c :: _ => (valOf c).isSome

/-- JavaScript `parseInt(s)` with the default radix: skip leading
whitespace, optional sign, `0x`/`0X` switches to hexadecimal, then the
longest leading digit run; `none` models `NaN` (no digit consumed). -/
def parseIntJS (s : List Char) : Option Int :=
  let t := s.dropWhile Char.isWhitespace
  let signAndRest : Bool × List Char :=
    match t with
    | '-' :: r => (true, r)
    | '+' :: r => (false, r)
    | r => (false, r)
  let baseAndRest : (Char → Option Nat) × Nat × List Char :=
    match signAndRest.2 with
    | '0' :: 'x' :: r => (hexVal, 16, r)
    | '0' :: 'X' :: r => (hexVal, 16, r)
    | r => (decVal, 10, r)
  if hasLeadingDigit baseAndRest.1 baseAndRest.2.2 then
    let n : Int := parseDigitsAcc baseAndRest.1 baseAndRest.2.1 baseAndRest.2.2 0
    some (if signAndRest.1 then -n else n)
  else none

/-- Parse one `tasklist /FO CSV /NH` row (patcher.ts 341-346): split on
`","`, and when there are at least two fields and the second is non-empty,
strip every `"` from it and `parseInt` the result; otherwise the row
contributes the number `0`. -/
def parseWinRow (l : List Char) : Option Int :=
  let parts := splitOnSep [Char.ofNat 34, ',', Char.ofNat 34] l
  match parts with
  | _ :: p1 :: _ =>
    if p1 ≠ [] then parseIntJS (p1.filter (fun c => !(c == Char.ofNat 34)))
    else some 0
  | _ => some 0

/-- `getYandexMusicProcesses` (patcher.ts 326-353): `execResult` is the
command's stdout, `none` when `execAsync` rejected (caught, returning `[]`).
Rows are split on newlines, blank rows dropped, each row parsed
(per-column on Windows, whole-line `parseInt` elsewhere), and only values
`> 0` that are not `NaN` are kept. -/
def getYandexMusicProcesses (isWin : Bool) (execResult : Option String) : List Int :=
  match execResult with
  | none => []
  | some stdout =>
    if (trimChars stdout.data).isEmpty then []
    else
      let rows := (splitOnChar (Char.ofNat 10) stdout.data).filter
        (fun l => !(trimChars l).isEmpty)
      let vals : List (Option Int) :=
        rows.map (fun l => if isWin then parseWinRow l else parseIntJS l)
      vals.filterMap (fun o =>
        match o with
        | some n => if n > 0 then some n else none
        | none => none)

/-! ## Lemmas about the scanning primitives -/

theorem firstMatch_none {α : Type} [DecidableEq α] {buf pat : List α}
    (h : firstMatch buf pat = none) : ∀ j, ¬ pat <+: buf.drop j := by
  induction buf with
  | nil =>
    intro j hp
    rw [List.drop_nil] at hp
    have : pat = [] := List.prefix_nil.mp hp
    simp [firstMatch, this] at h
  | cons b rest ih =>
    intro j hp
    rw [firstMatch] at h
    by_cases hpre : pat.isPrefixOf (b :: rest)
    · simp [hpre] at h
    · simp [hpre] at h
      cases j with
      | zero =>
        rw [List.drop_zero] at hp
        exact hpre (List.isPrefixOf_iff_prefix.mpr hp)
      | succ j' =>
        exact ih h j' (by simpa using hp)

theorem firstMatch_some {α : Type} [DecidableEq α] {buf pat : List α} {j : Nat}
    (h : firstMatch buf pat = some j) :
    pat <+: buf.drop j ∧ j ≤ buf.length ∧ ∀ k, k < j → ¬ pat <+: buf.drop k := by
  induction buf generalizing j with
  | nil =>
    rw [firstMatch] at h
    by_cases he : pat.isEmpty
    · simp [he] at h
      subst h
      refine ⟨?_, by simp, by omega⟩
      simp [List.isEmpty_iff.mp he]
    · simp [he] at h
  | cons b rest ih =>
    rw [firstMatch] at h
    by_cases hpre : pat.isPrefixOf (b :: rest)
    · simp [hpre] at h
      subst h
      exact ⟨List.isPrefixOf_iff_prefix.mp hpre, by simp, by omega⟩
    · simp [hpre] at h
      obtain ⟨j', hj', rfl⟩ := h
      obtain ⟨h1, h2, h3⟩ := ih hj'
      refine ⟨by simpa using h1, by simp; omega, ?_⟩
      intro k hk
      cases k with
      | zero =>
        rw [List.drop_zero]
        exact fun hc => hpre (List.isPrefixOf_iff_prefix.mpr hc)
      | succ k' =>
        intro hc
        exact h3 k' (by omega) (by simpa using hc)

theorem indexOfFrom_some {α : Type} [DecidableEq α] {buf pat : List α} {offset idx : Nat}
    (h : indexOfFrom buf pat offset = some idx) :
    offset ≤ idx ∧ pat <+: buf.drop idx ∧
      ∀ p, offset ≤ p → p < idx → ¬ pat <+: buf.drop p := by
  rw [indexOfFrom, Option.map_eq_some'] at h
  obtain ⟨j, hj, rfl⟩ := h
  obtain ⟨h1, _, h3⟩ := firstMatch_some hj
  refine ⟨by omega, ?_, ?_⟩
  · rw [List.drop_drop] at h1
    simpa [Nat.add_comm] using h1
  · intro p hop hpi hc
    refine h3 (p - offset) (by omega) ?_
    rw [List.drop_drop]
    have : offset + (p - offset) = p := by omega
    rw [this]
    exact hc

theorem indexOfFrom_none {α : Type} [DecidableEq α] {buf pat : List α} {offset : Nat}
    (h : indexOfFrom buf pat offset = none) :
    ∀ p, offset ≤ p → ¬ pat <+: buf.drop p := by
  rw [indexOfFrom, Option.map_eq_none'] at h
  intro p hp hc
  refine firstMatch_none h (p - offset) ?_
  rw [List.drop_drop]
  have : offset + (p - offset) = p := by omega
  rw [this]
  exact hc

theorem indexOfFrom_some_bound {α : Type} [DecidableEq α] {buf pat : List α} {offset idx : Nat}
    (hne : pat ≠ []) (h : indexOfFrom buf pat offset = some idx) :
    idx + pat.length ≤ buf.length := by
  obtain ⟨_, h2, _⟩ := indexOfFrom_some h
  have hlen := h2.length_le
  rw [List.length_drop] at hlen
  have : 1 ≤ pat.length := by
    cases pat with
    | nil => exact absurd rfl hne
    | cons c cs => simp
  omega

theorem replaceAt_length {α : Type} (buf new : List α) (idx : Nat) :
    (replaceAt buf new idx).length = buf.length := by
  simp [replaceAt]
  omega

theorem replaceAt_getElem_lt {α : Type} {buf new : List α} {idx i : Nat} (h : i < idx) :
    (replaceAt buf new idx)[i]? = buf[i]? := by
  by_cases hl : i < buf.length
  · rw [replaceAt, List.append_assoc, List.getElem?_append]
    rw [if_pos (by simp [List.length_take]; omega)]
    rw [List.getElem?_take, if_pos h]
  · have h1 : buf.length ≤ i := by omega
    rw [List.getElem?_eq_none h1, List.getElem?_eq_none (by rw [replaceAt_length]; exact h1)]

theorem replaceAt_getElem_ge {α : Type} {buf new : List α} {idx i : Nat}
    (h : idx + new.length ≤ i) :
    (replaceAt buf new idx)[i]? = buf[i]? := by
  by_cases hl : i < buf.length
  · have hA : (buf.take idx).length = idx := by simp [List.length_take]; omega
    have hB : (new.take (buf.length - idx)).length = new.length := by
      simp [List.length_take]; omega
    rw [replaceAt, List.append_assoc, List.getElem?_append, if_neg (by omega)]
    rw [List.getElem?_append, if_neg (by rw [hA, hB]; omega)]
    rw [List.getElem?_drop, hA, hB]
    congr 1
    omega
  · have h1 : buf.length ≤ i := by omega
    rw [List.getElem?_eq_none h1, List.getElem?_eq_none (by rw [replaceAt_length]; exact h1)]

theorem replaceAt_getElem_mid {α : Type} {buf new : List α} {idx j : Nat}
    (hb : idx + new.length ≤ buf.length) (hj : j < new.length) :
    (replaceAt buf new idx)[idx + j]? = new[j]? := by
  have hA : (buf.take idx).length = idx := by simp [List.length_take]; omega
  have hB : (new.take (buf.length - idx)).length = new.length := by
    simp [List.length_take]; omega
  rw [replaceAt, List.append_assoc, List.getElem?_append, if_neg (by omega)]
  rw [List.getElem?_append, if_pos (by rw [hA, hB]; omega)]
  rw [hA]
  rw [List.getElem?_take, if_pos (by omega)]
  congr 1
  omega

theorem replaceAt_drop_ge {α : Type} {buf new : List α} {idx p : Nat}
    (h : idx + new.length ≤ p) :
    (replaceAt buf new idx).drop p = buf.drop p := by
  apply List.ext_getElem?
  intro i
  rw [List.getElem?_drop, List.getElem?_drop]
  exact replaceAt_getElem_ge (by omega)

/-- Characterisation of the scan-and-replace loop: with a non-empty search
pattern, a replacement of the same length, enough fuel, and all occurrences
at or after `offset` pairwise non-overlapping, the loop terminates and the
result has the same length, is unchanged before `offset`, holds `newB` at
every occurrence position at or after `offset`, and is unchanged at every
index not covered by such an occurrence. -/
theorem replaceLoop_spec {α : Type} [DecidableEq α] (oldB newB : List α)
    (hne : oldB ≠ []) (hlen : newB.length = oldB.length) :
    ∀ fuel buf offset,
      buf.length + 1 ≤ fuel + offset → 1 ≤ fuel →
      (∀ p q, offset ≤ p → p < q → oldB <+: buf.drop p → oldB <+: buf.drop q →
        p + oldB.length ≤ q) →
      ∃ r, replaceLoop oldB newB fuel buf offset = some r ∧
        r.length = buf.length ∧
        (∀ i, i < offset → r[i]? = buf[i]?) ∧
        (∀ p, offset ≤ p → oldB <+: buf.drop p →
          ∀ j, j < oldB.length → r[p + j]? = newB[j]?) ∧
        (∀ i, offset ≤ i →
          (∀ p, offset ≤ p → oldB <+: buf.drop p → i < p ∨ p + oldB.length ≤ i) →
          r[i]? = buf[i]?) := by
  intro fuel
  have holen : 1 ≤ oldB.length := by
    cases oldB with
    | nil => exact absurd rfl hne
    | cons c cs => simp
  induction fuel with
  | zero =>
    intro buf offset h1 h2
    omega
  | succ fuel ih =>
    intro buf offset hbound _ hsep
    cases hidx : indexOfFrom buf oldB offset with
    | none =>
      refine ⟨buf, ?_, rfl, fun _ _ => rfl, ?_, fun _ _ _ => rfl⟩
      · rw [replaceLoop, hidx]
      · intro p hp hocc
        exact absurd hocc (indexOfFrom_none hidx p hp)
    | some idx =>
      obtain ⟨hge, hocc, hmin⟩ := indexOfFrom_some hidx
      have hbnd : idx + oldB.length ≤ buf.length := indexOfFrom_some_bound hne hidx
      have hlen' : (replaceAt buf newB idx).length = buf.length := replaceAt_length _ _ _
      have hdrop : ∀ p, idx + oldB.length ≤ p →
          (replaceAt buf newB idx).drop p = buf.drop p := by
        intro p hp
        exact replaceAt_drop_ge (by omega)
      have hsep' : ∀ p q, idx + oldB.length ≤ p → p < q →
          oldB <+: (replaceAt buf newB idx).drop p →
          oldB <+: (replaceAt buf newB idx).drop q → p + oldB.length ≤ q := by
        intro p q hp hpq hzp hzq
        rw [hdrop p hp] at hzp
        rw [hdrop q (by omega)] at hzq
        exact hsep p q (by omega) hpq hzp hzq
      obtain ⟨r, hr, hrl, hpre, hoccs, hout⟩ :=
        ih (replaceAt buf newB idx) (idx + oldB.length) (by omega) (by omega) hsep'
      refine ⟨r, ?_, by omega, ?_, ?_, ?_⟩
      · rw [replaceLoop, hidx]
        exact hr
      · intro i hi
        rw [hpre i (by omega)]
        exact replaceAt_getElem_lt (by omega)
      · intro p hp hoccp j hj
        rcases lt_trichotomy p idx with hlt | rfl | hgt
        · exact absurd hoccp (hmin p hp hlt)
        · rw [hpre (p + j) (by omega)]
          exact replaceAt_getElem_mid (by omega) (by omega)
        · have hge2 : idx + oldB.length ≤ p := hsep idx p hge hgt hocc hoccp
          have hoccp' : oldB <+: (replaceAt buf newB idx).drop p := by
            rw [hdrop p hge2]
            exact hoccp
          exact hoccs p hge2 hoccp' j hj
      · intro i hi hno
        rcases Nat.lt_or_ge i idx with hl | hg
        · rw [hpre i (by omega)]
          exact replaceAt_getElem_lt hl
        · rcases Nat.lt_or_ge i (idx + oldB.length) with hm | hgo
          · have := hno idx hge hocc
            omega
          · have hstep : r[i]? = (replaceAt buf newB idx)[i]? := by
              apply hout i (by omega)
              intro p hp hoccp
              rw [hdrop p hp] at hoccp
              exact hno p (by omega) hoccp
            rw [hstep]
            exact replaceAt_getElem_ge (by omega)

/-! ## Lemmas about the temp-directory model -/

theorem tmpLookup_tmpWrite_self (tmp : List (String × List Nat)) (k : String) (v : List Nat) :
    tmpLookup (tmpWrite tmp k v) k = some v := by
  simp [tmpLookup, tmpWrite, List.find?_cons]

theorem find?_filter_of_imp {α : Type} (l : List α) (p q : α → Bool)
    (h : ∀ e, p e = true → q e = true) :
    (l.filter q).find? p = l.find? p := by
  induction l with
  | nil => rfl
  | cons x xs ih =>
    by_cases hq : q x
    · rw [List.filter_cons_of_pos hq, List.find?_cons, List.find?_cons]
      cases hp : p x
      · exact ih
      · rfl
    · have hp : p x = false := by
        cases hpx : p x
        · rfl
        · exact absurd (h x hpx) (by simp_all)
      rw [List.filter_cons_of_neg (by simp_all), List.find?_cons, hp, ih]

theorem tmpLookup_tmpWrite_other (tmp : List (String × List Nat)) (k k' : String)
    (v : List Nat) (h : k' ≠ k) :
    tmpLookup (tmpWrite tmp k v) k' = tmpLookup tmp k' := by
  rw [tmpLookup, tmpWrite, List.find?_cons]
  have hne : ((k, v).1 == k') = false := by
    simp only [beq_eq_false_iff_ne, ne_eq]
    exact fun hc => h hc.symm
  rw [hne, tmpLookup, find?_filter_of_imp]
  intro e he
  have : e.1 = k' := by
    have := eq_of_beq he
    exact this
  subst this
  simp only [Bool.not_eq_true', beq_eq_false_iff_ne, ne_eq]
  exact fun hc => h hc

theorem tmpLookup_clearCaches (fs : Fs) (k : String)
    (hk : endsWithStr k ".backup" = true) :
    tmpLookup (clearCaches false fs).tmp k = tmpLookup fs.tmp k := by
  rw [clearCaches]
  rw [tmpLookup, tmpLookup, find?_filter_of_imp]
  intro e he
  have : e.1 = k := eq_of_beq he
  rw [this]
  simp [hk]

/-! ## Frame lemmas: which parts of the filesystem each phase can touch -/

theorem downloadAssetNow_frame (env : PatchEnv) (asset : ReleaseAsset) (fs g : Fs)
    (hg : (downloadAssetNow env asset fs).2 = Except.ok g ∨
      ∃ e, (downloadAssetNow env asset fs).2 = Except.error (e, g)) :
    g.asar = fs.asar ∧ g.exe = fs.exe ∧ g.exeBackup = fs.exeBackup := by
  rw [downloadAssetNow] at hg
  rcases h1 : env.net asset.browser_download_url with _ | bytes <;> rw [h1] at hg
  · rcases hg with h | ⟨e, h⟩
    · exact absurd h (by simp)
    · simp only [Except.error.injEq, Prod.mk.injEq] at h
      rw [← h.2]
      exact ⟨rfl, rfl, rfl⟩
  · by_cases h2 : endsWithStr asset.name ".gz"
    · simp only [h2, if_true] at hg
      rcases h3 : env.unzip bytes with _ | d <;> rw [h3] at hg
      · rcases hg with h | ⟨e, h⟩
        · exact absurd h (by simp)
        · simp only [Except.error.injEq, Prod.mk.injEq] at h
          rw [← h.2]
          exact ⟨rfl, rfl, rfl⟩
      · rcases hg with h | ⟨e, h⟩
        · simp only [Except.ok.injEq] at h
          rw [← h]
          exact ⟨rfl, rfl, rfl⟩
        · exact absurd h (by simp)
    · simp only [h2, if_false] at hg
      rcases hg with h | ⟨e, h⟩
      · have h' : (Except.ok { fs with tmp := tmpWrite fs.tmp asset.name bytes } :
            Except (PatchError × Fs) Fs) = Except.ok g := h
        injection h' with h''
        rw [← h'']
        exact ⟨rfl, rfl, rfl⟩
      · exact absurd h (by simp)

theorem fetchAsset_frame (env : PatchEnv) (asset : ReleaseAsset) (fs g : Fs)
    (hg : (fetchAsset env asset fs).2 = Except.ok g ∨
      ∃ e, (fetchAsset env asset fs).2 = Except.error (e, g)) :
    g.asar = fs.asar ∧ g.exe = fs.exe ∧ g.exeBackup = fs.exeBackup := by
  rw [fetchAsset] at hg
  by_cases hc : env.useCache
  · simp only [hc, if_true] at hg
    rcases h1 : tmpLookup fs.tmp asset.name with _ | c
    · rw [h1] at hg
      exact downloadAssetNow_frame env asset fs g hg
    · rw [h1] at hg
      by_cases h2 : c.length = asset.size
      · simp only [h2, if_true] at hg
        by_cases h3 : endsWithStr asset.name ".gz"
        · simp only [h3, if_true] at hg
          rcases h4 : env.unzip c with _ | d <;> rw [h4] at hg
          · rcases hg with h | ⟨e, h⟩
            · exact absurd h (by simp)
            · simp only [Except.error.injEq, Prod.mk.injEq] at h
              rw [← h.2]
              exact ⟨rfl, rfl, rfl⟩
          · rcases hg with h | ⟨e, h⟩
            · simp only [Except.ok.injEq] at h
              rw [← h]
              exact ⟨rfl, rfl, rfl⟩
            · exact absurd h (by simp)
        · simp only [h3, if_false] at hg
          rcases hg with h | ⟨e, h⟩
          · have h' : (Except.ok fs : Except (PatchError × Fs) Fs) = Except.ok g := h
            injection h' with h''
            rw [← h'']
            exact ⟨rfl, rfl, rfl⟩
          · exact absurd h (by simp)
      · simp only [h2, if_false] at hg
        exact downloadAssetNow_frame env asset fs g hg
  · simp only [hc, if_false] at hg
    exact downloadAssetNow_frame env asset fs g hg

theorem downloadModFiles_frame (env : PatchEnv) (fs g : Fs)
    (hg : (downloadModFiles env fs).2 = Except.ok g ∨
      ∃ e, (downloadModFiles env fs).2 = Except.error (e, g)) :
    g.asar = fs.asar ∧ g.exe = fs.exe ∧ g.exeBackup = fs.exeBackup := by
  rw [downloadModFiles] at hg
  rcases h1 : resolveAsset env.release.assets env.patchType with _ | asset
  · rw [h1] at hg
    rcases hg with h | ⟨e, h⟩ <;> simp_all
  · rw [h1] at hg
    exact fetchAsset_frame env asset fs g hg

/-! ## Error classification: which errors each download phase can raise -/

theorem downloadAssetNow_err (env : PatchEnv) (asset : ReleaseAsset) (fs : Fs)
    (e : PatchError) (g : Fs)
    (h : (downloadAssetNow env asset fs).2 = Except.error (e, g)) :
    e = PatchError.downloadFailed ∨ e = PatchError.unzipFailed := by
  rw [downloadAssetNow] at h
  rcases hn : env.net asset.browser_download_url with _ | bytes <;> rw [hn] at h
  · simp only [Except.error.injEq, Prod.mk.injEq] at h
    exact Or.inl h.1.symm
  · by_cases hgz : endsWithStr asset.name ".gz"
    · simp only [hgz, if_true] at h
      rcases hz : env.unzip bytes with _ | d <;> rw [hz] at h
      · simp only [Except.error.injEq, Prod.mk.injEq] at h
        exact Or.inr h.1.symm
      · exact absurd h (by simp)
    · simp only [hgz, if_false] at h
      exact absurd h (by simp)

theorem fetchAsset_err (env : PatchEnv) (asset : ReleaseAsset) (fs : Fs)
    (e : PatchError) (g : Fs)
    (h : (fetchAsset env asset fs).2 = Except.error (e, g)) :
    e = PatchError.downloadFailed ∨ e = PatchError.unzipFailed := by
  rw [fetchAsset] at h
  by_cases hc : env.useCache
  · simp only [hc, if_true] at h
    rcases h1 : tmpLookup fs.tmp asset.name with _ | c <;> rw [h1] at h
    · exact downloadAssetNow_err env asset fs e g h
    · by_cases h2 : c.length = asset.size
      · simp only [h2, if_true] at h
        by_cases h3 : endsWithStr asset.name ".gz"
        · simp only [h3, if_true] at h
          rcases h4 : env.unzip c with _ | d <;> rw [h4] at h
          · simp only [Except.error.injEq, Prod.mk.injEq] at h
            exact Or.inr h.1.symm
          · exact absurd h (by simp)
        · simp only [h3, if_false] at h
          exact absurd h (by simp)
      · simp only [h2, if_false] at h
        exact downloadAssetNow_err env asset fs e g h
  · simp only [hc, if_false] at h
    exact downloadAssetNow_err env asset fs e g h

theorem downloadModFiles_err (env : PatchEnv) (fs : Fs) (e : PatchError) (g : Fs)
    (h : (downloadModFiles env fs).2 = Except.error (e, g)) :
    e = PatchError.assetNotFound ∨ e = PatchError.downloadFailed ∨
      e = PatchError.unzipFailed := by
  rw [downloadModFiles] at h
  rcases h1 : resolveAsset env.release.assets env.patchType with _ | asset <;> rw [h1] at h
  · simp only [Except.error.injEq, Prod.mk.injEq] at h
    exact Or.inl h.1.symm
  · rcases fetchAsset_err env asset fs e g h with h2 | h2
    · exact Or.inr (Or.inl h2)
    · exact Or.inr (Or.inr h2)

/-! ## Helpers for the `bypassIntegrityWin` claims -/

theorem prefix_getElem {α : Type} {buf pat : List α} {p j : Nat}
    (hp : pat <+: buf.drop p) (hj : j < pat.length) :
    buf[p + j]? = pat[j]? := by
  obtain ⟨t, ht⟩ := hp
  rw [← List.getElem?_drop, ← ht, List.getElem?_append, if_pos hj]

/-- Termination of the scan-and-replace loop needs no assumption beyond a
non-empty search pattern: every iteration moves the search offset past the
occurrence it just rewrote. -/
theorem replaceLoop_fuel {α : Type} [DecidableEq α] (oldB newB : List α) (hne : oldB ≠ []) :
    ∀ fuel buf offset, buf.length + 1 ≤ fuel + offset → 1 ≤ fuel →
      ∃ r, replaceLoop oldB newB fuel buf offset = some r := by
  intro fuel
  have holen : 1 ≤ oldB.length := by
    cases oldB with
    | nil => exact absurd rfl hne
    | cons c cs => simp
  induction fuel with
  | zero =>
    intro buf offset h1 h2
    omega
  | succ fuel ih =>
    intro buf offset hb _
    cases hidx : indexOfFrom buf oldB offset with
    | none => exact ⟨buf, by rw [replaceLoop, hidx]⟩
    | some idx =>
      obtain ⟨hge, _, _⟩ := indexOfFrom_some hidx
      have hbnd : idx + oldB.length ≤ buf.length := indexOfFrom_some_bound hne hidx
      obtain ⟨r, hr⟩ := ih (replaceAt buf newB idx) (idx + oldB.length)
        (by rw [replaceAt_length]; omega) (by omega)
      exact ⟨r, by rw [replaceLoop, hidx]; exact hr⟩

theorem asciiEncode_length (s : List Nat) : (asciiEncode s).length = s.length := by
  simp [asciiEncode]

theorem asciiEncode_ne_nil {s : List Nat} (h : s ≠ []) : asciiEncode s ≠ [] := by
  cases s with
  | nil => exact absurd rfl h
  | cons c cs => simp [asciiEncode]

/-! ## Claim theorems -/

/-- C1: For every executable byte buffer whose occurrences of the
ASCII-encoded old digest are pairwise non-overlapping (the buffer contains
N such occurrences, N being the number of occurrence positions), and
digests of equal (non-zero) length, `bypassIntegrityWin` terminates and
yields a buffer of the same total length in which every occurrence
position now holds the ASCII-encoded new digest and every byte outside
the replaced occurrences is unchanged. -/
theorem claim1_hash_substitution
    (oldHash newHash : List Nat) (fs : ExeFs) (buf : List Nat)
    (hexe : fs.exe = some buf)
    (hne : oldHash ≠ [])
    (hlen : newHash.length = oldHash.length)
    (hsep : ∀ p q, asciiEncode oldHash <+: buf.drop p →
      asciiEncode oldHash <+: buf.drop q → p < q → p + oldHash.length ≤ q) :
    ∃ fs1 out, bypassIntegrityWin true oldHash newHash fs = (fs1, some out) ∧
      ∃ r, fs1.exe = some r ∧
        r.length = buf.length ∧
        (∀ p, asciiEncode oldHash <+: buf.drop p →
          ∀ j, j < oldHash.length → r[p + j]? = (asciiEncode newHash)[j]?) ∧
        (∀ i, (∀ p, asciiEncode oldHash <+: buf.drop p → i < p ∨ p + oldHash.length ≤ i) →
          r[i]? = buf[i]?) := by
  have holdB := asciiEncode_length oldHash
  have hnewB := asciiEncode_length newHash
  have hneB := asciiEncode_ne_nil hne
  by_cases heq : oldHash = newHash
  · refine ⟨fs, WinPatchOutcome.skipped, ?_, buf, hexe, rfl, ?_, fun _ _ => rfl⟩
    · simp [bypassIntegrityWin, hexe, heq]
    · intro p hp j hj
      have h1 : buf[p + j]? = (asciiEncode oldHash)[j]? := prefix_getElem hp (by omega)
      rw [h1, heq]
  · cases hidx : indexOfFrom buf (asciiEncode oldHash) 0 with
    | none =>
      refine ⟨{ fs with backup := some (fs.backup.getD buf) }, WinPatchOutcome.warned,
        ?_, buf, hexe, rfl, ?_, fun _ _ => rfl⟩
      · simp [bypassIntegrityWin, hexe, heq, hidx]
      · intro p hp j hj
        exact absurd hp (indexOfFrom_none hidx p (Nat.zero_le p))
    | some i0 =>
      obtain ⟨r, hr, hrl, _, hoccs, hout⟩ :=
        replaceLoop_spec (asciiEncode oldHash) (asciiEncode newHash) hneB (by omega)
          (buf.length + 1) buf 0 (by omega) (by omega)
          (fun p q _ hpq hp hq => by
            have := hsep p q hp hq hpq
            omega)
      refine ⟨{ fs with exe := some r, backup := some (fs.backup.getD buf) },
        WinPatchOutcome.patched, ?_, r, rfl, hrl, ?_, ?_⟩
      · simp [bypassIntegrityWin, hexe, heq, hidx, hr]
      · intro p hp j hj
        have := hoccs p (Nat.zero_le p) hp j (by omega)
        exact this
      · intro i hno
        exact hout i (Nat.zero_le i) (fun p _ hp => by
          have := hno p hp
          omega)

/-- C2: `bypassIntegrityWin` leaves the executable byte-identical whenever
the old digest equals the new digest or the ASCII-encoded old digest does
not occur in the file's bytes; in the absent case (with an executable path
and distinct digests) it signals the "not found" warning and still returns
normally. -/
theorem claim2_untouched_unless_found
    (hasPath : Bool) (oldHash newHash : List Nat) (fs : ExeFs) (buf : List Nat)
    (hexe : fs.exe = some buf)
    (h : oldHash = newHash ∨ indexOfFrom buf (asciiEncode oldHash) 0 = none) :
    (bypassIntegrityWin hasPath oldHash newHash fs).1.exe = fs.exe ∧
    ∃ out, (bypassIntegrityWin hasPath oldHash newHash fs).2 = some out ∧
      (hasPath = true → oldHash ≠ newHash → out = WinPatchOutcome.warned) := by
  by_cases hc : hasPath = false ∨ oldHash = newHash
  · constructor
    · simp [bypassIntegrityWin, hexe, hc]
    · refine ⟨WinPatchOutcome.skipped, ?_, ?_⟩
      · simp [bypassIntegrityWin, hexe, hc]
      · intro hp hne
        rcases hc with h1 | h1
        · rw [hp] at h1
          exact absurd h1 (by simp)
        · exact absurd h1 hne
  · push_neg at hc
    obtain ⟨hc1, hc2⟩ := hc
    have hidx : indexOfFrom buf (asciiEncode oldHash) 0 = none := by
      rcases h with h1 | h1
      · exact absurd h1 hc2
      · exact h1
    refine ⟨?_, WinPatchOutcome.warned, ?_, fun _ _ => rfl⟩
    · simp [bypassIntegrityWin, hexe, hc1, hc2, hidx]
    · simp [bypassIntegrityWin, hexe, hc1, hc2, hidx]

/-- C9: across any sequence of `bypassIntegrityWin` calls, the executable
backup is written at most once: a call that finds `<exe>.backup` already
present never overwrites it. -/
theorem claim9_backup_never_overwritten
    (hasPath : Bool) (oldH newH : List Nat) (fs : ExeFs) (b : List Nat)
    (hb : fs.backup = some b) :
    (bypassIntegrityWin hasPath oldH newH fs).1.backup = some b := by
  cases hexe : fs.exe with
  | none => simp [bypassIntegrityWin, hexe, hb]
  | some buf =>
    by_cases hc : hasPath = false ∨ oldH = newH
    · simp [bypassIntegrityWin, hexe, hc, hb]
    · by_cases hidx : indexOfFrom buf (asciiEncode oldH) 0 = none
      · simp [bypassIntegrityWin, hexe, hc, hidx, hb]
      · cases hrep : replaceLoop (asciiEncode oldH) (asciiEncode newH)
            (buf.length + 1) buf 0 with
        | none => simp [bypassIntegrityWin, hexe, hc, hidx, hrep, hb]
        | some r => simp [bypassIntegrityWin, hexe, hc, hidx, hrep, hb]

/-- C10: for every file buffer and non-empty old-digest byte string, the
scan-and-replace loop of `bypassIntegrityWin` terminates: run with the fuel
the model allots (one unit more than the buffer length, enough because every
iteration advances the search offset by at least the digest's length), it
returns a result instead of exhausting its fuel. -/
theorem claim10_loop_terminates (oldB newB buf : List Nat) (hne : oldB ≠ []) :
    ∃ r, replaceLoop oldB newB (buf.length + 1) buf 0 = some r :=
  replaceLoop_fuel oldB newB hne (buf.length + 1) buf 0 (by omega) (by omega)

/-- C4: when running instances are found and `force` is false, `patch()`
fails with the process-running error and returns the filesystem exactly as
it received it: nothing under the install root or the cache directory has
been created, modified or deleted. -/
theorem claim4_process_gate (env : PatchEnv) (fs : Fs)
    (hasar : fs.asar ≠ none) (hw : env.writable = true)
    (hproc : env.processes ≠ []) (hforce : env.force = false) :
    patch env fs = PatchOutcome.err PatchError.processRunning fs := by
  cases hA : fs.asar with
  | none => exact absurd hA hasar
  | some a =>
    simp only [patch, hA]
    rw [if_neg (by simp [hw]), if_pos ⟨hproc, hforce⟩]

theorem bypassWinOnFs_tmp (a b : List Nat) (fs : Fs) :
    (bypassWinOnFs a b fs).1.tmp = fs.tmp := rfl

theorem bypassWinOnFs_asar (a b : List Nat) (fs : Fs) :
    (bypassWinOnFs a b fs).1.asar = fs.asar := rfl

theorem keepCache_lookup (env : PatchEnv) (F : Fs) (asar0 : List Nat)
    (hF : tmpLookup F.tmp "app.asar.backup" = some asar0) :
    tmpLookup (if env.keepCache = false then clearCaches false F else F).tmp
      "app.asar.backup" = some asar0 := by
  by_cases hk : env.keepCache = false
  · rw [if_pos hk, tmpLookup_clearCaches F _ (by decide)]
    exact hF
  · rw [if_neg hk]
    exact hF

/-- C3: in every run of `patch()`, the backup of the pre-patch archive is
written to the temp directory strictly before the live archive is
overwritten: on every normal or hung exit the backup of the original
archive is on disk; on every failed `Replace` exit — the file-missing
error, whose only reachable throw site under these hypotheses is
`replaceAsar` finding no working file, strictly after `createBackup` ran —
the backup is on disk; and on every error exit whose state has a modified
archive the backup is on disk as well (in this code an error state in
fact never has a modified archive, because every failure point precedes
the overwrite). -/
theorem claim3_backup_before_replace (env : PatchEnv) (fs : Fs) (asar0 : List Nat)
    (hasar : fs.asar = some asar0) :
    (∀ g, patch env fs = PatchOutcome.ok g →
        tmpLookup g.tmp "app.asar.backup" = some asar0) ∧
    (∀ g, patch env fs = PatchOutcome.hung g →
        tmpLookup g.tmp "app.asar.backup" = some asar0) ∧
    (∀ g, patch env fs = PatchOutcome.err PatchError.fileMissing g →
        tmpLookup g.tmp "app.asar.backup" = some asar0) ∧
    (∀ e g, patch env fs = PatchOutcome.err e g → g.asar ≠ some asar0 →
        tmpLookup g.tmp "app.asar.backup" = some asar0) := by
  by_cases hw : env.writable = false
  · have hp : patch env fs = PatchOutcome.err PatchError.noPermission fs := by
      simp only [patch, hasar]
      rw [if_pos hw]
    refine ⟨fun g hg => ?_, fun g hg => ?_, fun g hg => ?_, fun e g hg hne => ?_⟩
    · rw [hp] at hg; cases hg
    · rw [hp] at hg; cases hg
    · rw [hp] at hg; simp at hg
    · rw [hp] at hg
      cases hg
      exact absurd hasar hne
  · by_cases hpr : env.processes ≠ [] ∧ env.force = false
    · have hp : patch env fs = PatchOutcome.err PatchError.processRunning fs := by
        simp only [patch, hasar]
        rw [if_neg hw, if_pos hpr]
      refine ⟨fun g hg => ?_, fun g hg => ?_, fun g hg => ?_, fun e g hg hne => ?_⟩
      · rw [hp] at hg; cases hg
      · rw [hp] at hg; cases hg
      · rw [hp] at hg; simp at hg
      · rw [hp] at hg
        cases hg
        exact absurd hasar hne
    · cases hdl : (downloadModFiles env fs).2 with
      | error p =>
        obtain ⟨e1, g1⟩ := p
        have hg1 : g1.asar = fs.asar := (downloadModFiles_frame env fs g1 (Or.inr ⟨e1, hdl⟩)).1
        have hcl := downloadModFiles_err env fs e1 g1 hdl
        have hp : patch env fs = PatchOutcome.err e1 g1 := by
          simp only [patch, hasar]
          rw [if_neg hw, if_neg hpr]
          simp only [hdl]
        refine ⟨fun g hg => ?_, fun g hg => ?_, fun g hg => ?_, fun e g hg hne => ?_⟩
        · rw [hp] at hg; cases hg
        · rw [hp] at hg; cases hg
        · rw [hp] at hg
          cases hg
          rcases hcl with h | h | h <;> simp at h
        · rw [hp] at hg
          cases hg
          exact absurd (hg1.trans hasar) hne
      | ok fs1 =>
        have hfs1 : fs1.asar = fs.asar := (downloadModFiles_frame env fs fs1 (Or.inl hdl)).1
        have hfs1a : fs1.asar = some asar0 := hfs1.trans hasar
        have hcb : createBackup fs1 =
            Except.ok { fs1 with tmp := tmpWrite fs1.tmp "app.asar.backup" asar0 } := by
          simp only [createBackup, hfs1a]
        have hself : tmpLookup (tmpWrite fs1.tmp "app.asar.backup" asar0) "app.asar.backup"
            = some asar0 := tmpLookup_tmpWrite_self _ _ _
        cases hra : tmpLookup (tmpWrite fs1.tmp "app.asar.backup" asar0) "app.asar" with
        | none =>
          have hp : patch env fs = PatchOutcome.err PatchError.fileMissing
              { fs1 with tmp := tmpWrite fs1.tmp "app.asar.backup" asar0 } := by
            simp only [patch, hasar]
            rw [if_neg hw, if_neg hpr]
            simp only [hdl, hcb, replaceAsar, hra]
          refine ⟨fun g hg => ?_, fun g hg => ?_, fun g hg => ?_, fun e g hg hne => ?_⟩
          · rw [hp] at hg; cases hg
          · rw [hp] at hg; cases hg
          · rw [hp] at hg
            cases hg
            exact hself
          · rw [hp] at hg
            cases hg
            exact absurd hfs1a hne
        | some c =>
          have hrep : replaceAsar { fs1 with tmp := tmpWrite fs1.tmp "app.asar.backup" asar0 }
              = Except.ok (Fs.mk (some c) fs1.exe fs1.exeBackup
                  (tmpWrite fs1.tmp "app.asar.backup" asar0)) := by
            simp only [replaceAsar, hra]
          by_cases hpl : env.platform = Platform.win32
          · cases hbw : (bypassWinOnFs (env.hashFn asar0) (env.hashFn c)
                (Fs.mk (some c) fs1.exe fs1.exeBackup
                  (tmpWrite fs1.tmp "app.asar.backup" asar0))).2 with
            | none =>
              have hp : patch env fs = PatchOutcome.hung
                  (bypassWinOnFs (env.hashFn asar0) (env.hashFn c)
                    (Fs.mk (some c) fs1.exe fs1.exeBackup
                      (tmpWrite fs1.tmp "app.asar.backup" asar0))).1 := by
                simp only [patch, hasar]
                rw [if_neg hw, if_neg hpr]
                simp only [hdl, hcb, hrep, hpl]
                simp [hbw]
              refine ⟨fun g hg => ?_, fun g hg => ?_, fun g hg => ?_, fun e g hg hne => ?_⟩
              · rw [hp] at hg; cases hg
              · rw [hp] at hg
                cases hg
                rw [bypassWinOnFs_tmp]
                exact hself
              · rw [hp] at hg; cases hg
              · rw [hp] at hg; cases hg
            | some o =>
              have hp : patch env fs = PatchOutcome.ok
                  (if env.keepCache = false then
                    clearCaches false (bypassWinOnFs (env.hashFn asar0) (env.hashFn c)
                      (Fs.mk (some c) fs1.exe fs1.exeBackup
                        (tmpWrite fs1.tmp "app.asar.backup" asar0))).1
                  else (bypassWinOnFs (env.hashFn asar0) (env.hashFn c)
                      (Fs.mk (some c) fs1.exe fs1.exeBackup
                        (tmpWrite fs1.tmp "app.asar.backup" asar0))).1) := by
                simp only [patch, hasar]
                rw [if_neg hw, if_neg hpr]
                simp only [hdl, hcb, hrep, hpl]
                simp [hbw]
              refine ⟨fun g hg => ?_, fun g hg => ?_, fun g hg => ?_, fun e g hg hne => ?_⟩
              · rw [hp] at hg
                cases hg
                refine keepCache_lookup env _ asar0 ?_
                rw [bypassWinOnFs_tmp]
                exact hself
              · rw [hp] at hg; cases hg
              · rw [hp] at hg; cases hg
              · rw [hp] at hg; cases hg
          · have hp : patch env fs = PatchOutcome.ok
                (if env.keepCache = false then
                  clearCaches false (Fs.mk (some c) fs1.exe fs1.exeBackup
                    (tmpWrite fs1.tmp "app.asar.backup" asar0))
                else Fs.mk (some c) fs1.exe fs1.exeBackup
                    (tmpWrite fs1.tmp "app.asar.backup" asar0)) := by
              simp only [patch, hasar]
              rw [if_neg hw, if_neg hpr]
              simp only [hdl, hcb, hrep]
              rw [if_neg hpl]
            refine ⟨fun g hg => ?_, fun g hg => ?_, fun g hg => ?_, fun e g hg hne => ?_⟩
            · rw [hp] at hg
              cases hg
              exact keepCache_lookup env _ asar0 hself
            · rw [hp] at hg; cases hg
            · rw [hp] at hg; cases hg
            · rw [hp] at hg; cases hg

theorem downloadAssetNow_fst (env : PatchEnv) (asset : ReleaseAsset) (fs : Fs) :
    (downloadAssetNow env asset fs).1 = true := by
  rcases hn : env.net asset.browser_download_url with _ | bytes
  · rw [downloadAssetNow, hn]
  · rw [downloadAssetNow, hn]
    by_cases hgz : endsWithStr asset.name ".gz"
    · rcases hz : env.unzip bytes with _ | d <;> simp [hgz, hz]
    · simp [hgz]

theorem fetchAsset_cacheHit (env : PatchEnv) (asset : ReleaseAsset) (fs : Fs) (c : List Nat)
    (huse : env.useCache = true)
    (hcache : tmpLookup fs.tmp asset.name = some c)
    (hsz : c.length = asset.size) :
    fetchAsset env asset fs =
      (false,
        if endsWithStr asset.name ".gz" then
          match env.unzip c with
          | none => Except.error (PatchError.unzipFailed, fs)
          | some d => Except.ok { fs with tmp := tmpWrite fs.tmp "app.asar" d }
        else Except.ok fs) := by
  rw [fetchAsset, if_pos huse]
  simp only [hcache]
  rw [if_pos hsz]
  by_cases hgz : endsWithStr asset.name ".gz"
  · rw [if_pos hgz, if_pos hgz]
    rcases hz : env.unzip c with _ | d <;> rfl
  · rw [if_neg hgz, if_neg hgz]

theorem fetchAsset_cacheMiss (env : PatchEnv) (asset : ReleaseAsset) (fs : Fs) (c : List Nat)
    (huse : env.useCache = true)
    (hcache : tmpLookup fs.tmp asset.name = some c)
    (hsz : ¬ c.length = asset.size) :
    fetchAsset env asset fs = downloadAssetNow env asset fs := by
  rw [fetchAsset, if_pos huse]
  simp only [hcache]
  rw [if_neg hsz]

/-- C6: with caching enabled and a cache entry whose size equals the
asset's declared size, `downloadModFiles` performs zero network calls —
the network collaborator is never consulted and the result does not depend
on it — and reuses the cached bytes, decompressing them into the working
file when the asset is compressed; with a size mismatch it downloads the
asset again. -/
theorem claim6_cache_correctness (env : PatchEnv) (asset : ReleaseAsset) (fs : Fs)
    (c : List Nat)
    (hres : resolveAsset env.release.assets env.patchType = some asset)
    (huse : env.useCache = true)
    (hcache : tmpLookup fs.tmp asset.name = some c) :
    (c.length = asset.size →
      (downloadModFiles env fs).1 = false ∧
      (∀ g, downloadModFiles { env with net := g } fs = downloadModFiles env fs) ∧
      (endsWithStr asset.name ".gz" = false → (downloadModFiles env fs).2 = Except.ok fs) ∧
      (∀ d, endsWithStr asset.name ".gz" = true → env.unzip c = some d →
        (downloadModFiles env fs).2 =
          Except.ok { fs with tmp := tmpWrite fs.tmp "app.asar" d })) ∧
    (¬ c.length = asset.size → (downloadModFiles env fs).1 = true) := by
  constructor
  · intro hsz
    have hdf : downloadModFiles env fs = fetchAsset env asset fs := by
      rw [downloadModFiles, hres]
    refine ⟨?_, ?_, ?_, ?_⟩
    · rw [hdf, fetchAsset_cacheHit env asset fs c huse hcache hsz]
    · intro g
      have h1 : downloadModFiles { env with net := g } fs =
          fetchAsset { env with net := g } asset fs := by
        rw [downloadModFiles, hres]
      rw [h1, hdf, fetchAsset_cacheHit { env with net := g } asset fs c huse hcache hsz,
        fetchAsset_cacheHit env asset fs c huse hcache hsz]
    · intro hgz
      rw [hdf, fetchAsset_cacheHit env asset fs c huse hcache hsz]
      simp [hgz]
    · intro d hgz hz
      rw [hdf, fetchAsset_cacheHit env asset fs c huse hcache hsz]
      simp [hgz, hz]
  · intro hsz
    have h2 : downloadModFiles env fs = fetchAsset env asset fs := by
      rw [downloadModFiles, hres]
    rw [h2, fetchAsset_cacheMiss env asset fs c huse hcache hsz]
    exact downloadAssetNow_fst env asset fs

/-- C7: asset resolution prefers the compressed asset `<stem>.gz` for the
requested variant, falls back to the uncompressed `<stem>`, and when
neither is present resolution is empty and `downloadModFiles` fails with
the asset-not-found error. -/
theorem claim7_asset_resolution (assets : List ReleaseAsset) (t : PatchType) :
    ((∃ a ∈ assets, a.name = assetBaseName t ++ ".gz") →
      ∃ a, resolveAsset assets t = some a ∧ a ∈ assets ∧
        a.name = assetBaseName t ++ ".gz") ∧
    ((∀ a ∈ assets, a.name ≠ assetBaseName t ++ ".gz") →
      (∃ a ∈ assets, a.name = assetBaseName t) →
      ∃ a, resolveAsset assets t = some a ∧ a ∈ assets ∧ a.name = assetBaseName t) ∧
    ((∀ a ∈ assets, a.name ≠ assetBaseName t ++ ".gz" ∧ a.name ≠ assetBaseName t) →
      resolveAsset assets t = none ∧
      ∀ env fs, env.release.assets = assets → env.patchType = t →
        (downloadModFiles env fs).2 = Except.error (PatchError.assetNotFound, fs)) := by
  refine ⟨?_, ?_, ?_⟩
  · rintro ⟨a, ha, hn⟩
    have hex : ∃ x ∈ assets, ((fun b => b.name == assetBaseName t ++ ".gz") x) = true :=
      ⟨a, ha, by simp [hn]⟩
    obtain ⟨b, hb⟩ := Option.isSome_iff_exists.mp (List.find?_isSome.mpr hex)
    refine ⟨b, ?_, List.mem_of_find?_eq_some hb, by simpa using List.find?_some hb⟩
    rw [resolveAsset, hb]
  · rintro hno ⟨a, ha, hn⟩
    have hgz : assets.find? (fun b => b.name == assetBaseName t ++ ".gz") = none := by
      rw [List.find?_eq_none]
      intro x hx
      simp only [beq_iff_eq]
      exact hno x hx
    have hex : ∃ x ∈ assets, ((fun b => b.name == assetBaseName t) x) = true :=
      ⟨a, ha, by simp [hn]⟩
    obtain ⟨b, hb⟩ := Option.isSome_iff_exists.mp (List.find?_isSome.mpr hex)
    refine ⟨b, ?_, List.mem_of_find?_eq_some hb, by simpa using List.find?_some hb⟩
    rw [resolveAsset, hgz, hb]
  · intro hno
    have hgz : assets.find? (fun b => b.name == assetBaseName t ++ ".gz") = none := by
      rw [List.find?_eq_none]
      intro x hx
      simp only [beq_iff_eq]
      exact (hno x hx).1
    have hpl : assets.find? (fun b => b.name == assetBaseName t) = none := by
      rw [List.find?_eq_none]
      intro x hx
      simp only [beq_iff_eq]
      exact (hno x hx).2
    have hres : resolveAsset assets t = none := by rw [resolveAsset, hgz, hpl]
    refine ⟨hres, ?_⟩
    intro env fs hrel ht
    have hres2 : resolveAsset env.release.assets env.patchType = none := by
      rw [hrel, ht]
      exact hres
    rw [downloadModFiles, hres2]

/-- C8: process enumeration is total and safe: an enumeration failure
(`execAsync` rejecting) yields the empty list rather than an error, and
every process id in the returned list is strictly positive — malformed
rows contribute no id. -/
theorem claim8_process_enumeration (isWin : Bool) (execResult : Option String) :
    (execResult = none → getYandexMusicProcesses isWin execResult = []) ∧
    ∀ n ∈ getYandexMusicProcesses isWin execResult, 0 < n := by
  constructor
  · rintro rfl
    rfl
  · intro n hn
    cases execResult with
    | none => simp [getYandexMusicProcesses] at hn
    | some stdout =>
      rw [getYandexMusicProcesses] at hn
      by_cases ht : (trimChars stdout.data).isEmpty
      · rw [if_pos ht] at hn
        simp at hn
      · rw [if_neg ht] at hn
        simp only [List.mem_filterMap] at hn
        obtain ⟨o, _, ho⟩ := hn
        cases o with
        | none => simp at ho
        | some m =>
          simp only at ho
          by_cases hm : m > 0
          · rw [if_pos hm] at ho
            cases ho
            exact hm
          · rw [if_neg hm] at ho
            cases ho

/-- C5 fails on the code: with the `devtoolsOnly` variant and a release
whose only matching asset is the uncompressed `appDevTools.asar`, the
download step stores the asset's bytes at `<tmp>/appDevTools.asar` but
never writes the working file `<tmp>/app.asar` that `replaceAsar` copies
into the install root; on an otherwise clean run (no processes, cache
empty, download succeeding with the declared 3 bytes) `patch()` then fails
with the file-missing error while the freshly downloaded bytes sit unused
in the temp directory, instead of the working file containing the asset's
content as the claim requires. -/
theorem claim5_devtools_uncompressed_bug :
    (downloadModFiles
        ⟨Platform.linux, PatchType.devtoolsOnly, false, true, false, true, [],
          ⟨[⟨"appDevTools.asar", "u", 3⟩]⟩,
          fun _ => some [1, 2, 3], fun _ => none, fun _ => []⟩
        ⟨some [9, 9], none, none, []⟩).2 =
      Except.ok ⟨some [9, 9], none, none, [("appDevTools.asar", [1, 2, 3])]⟩ ∧
    tmpLookup [("appDevTools.asar", [1, 2, 3])] "app.asar" = none ∧
    patch
        ⟨Platform.linux, PatchType.devtoolsOnly, false, true, false, true, [],
          ⟨[⟨"appDevTools.asar", "u", 3⟩]⟩,
          fun _ => some [1, 2, 3], fun _ => none, fun _ => []⟩
        ⟨some [9, 9], none, none, []⟩ =
      PatchOutcome.err PatchError.fileMissing
        ⟨some [9, 9], none, none,
          [("app.asar.backup", [9, 9]), ("appDevTools.asar", [1, 2, 3])]⟩ := by
  refine ⟨rfl, by decide, by decide⟩

/-! ## Witnesses: the claim theorems applied at concrete inputs -/

theorem claim1_hash_substitution_witness :
    ∃ fs1 out, bypassIntegrityWin true [50, 51] [52, 53]
        ⟨some [1, 50, 51, 2, 50, 51], none⟩ = (fs1, some out) ∧
      ∃ r, fs1.exe = some r ∧
        r.length = ([1, 50, 51, 2, 50, 51] : List Nat).length ∧
        (∀ p, asciiEncode [50, 51] <+: ([1, 50, 51, 2, 50, 51] : List Nat).drop p →
          ∀ j, j < ([50, 51] : List Nat).length → r[p + j]? = (asciiEncode [52, 53])[j]?) ∧
        (∀ i, (∀ p, asciiEncode [50, 51] <+: ([1, 50, 51, 2, 50, 51] : List Nat).drop p →
            i < p ∨ p + ([50, 51] : List Nat).length ≤ i) →
          r[i]? = ([1, 50, 51, 2, 50, 51] : List Nat)[i]?) := by
  apply claim1_hash_substitution [50, 51] [52, 53] ⟨some [1, 50, 51, 2, 50, 51], none⟩
    [1, 50, 51, 2, 50, 51] rfl (by decide) (by decide)
  have hocc : ∀ p, asciiEncode [50, 51] <+: ([1, 50, 51, 2, 50, 51] : List Nat).drop p →
      p = 1 ∨ p = 4 := by
    intro p hp
    have hb := hp.length_le
    rw [List.length_drop] at hb
    have hb2 : (asciiEncode [50, 51]).length = 2 := by decide
    rw [hb2] at hb
    have hp4 : p ≤ 4 := by
      simp only [List.length_cons, List.length_nil] at hb
      omega
    interval_cases p <;> revert hp <;> decide
  intro p q hp hq hpq
  rcases hocc p hp with rfl | rfl <;> rcases hocc q hq with rfl | rfl
  · exact absurd hpq (by decide)
  · decide
  · exact absurd hpq (by decide)
  · exact absurd hpq (by decide)

theorem claim2_untouched_unless_found_witness :
    (bypassIntegrityWin true [50] [51] ⟨some [1, 2], none⟩).1.exe =
      (⟨some [1, 2], none⟩ : ExeFs).exe ∧
    ∃ out, (bypassIntegrityWin true [50] [51] ⟨some [1, 2], none⟩).2 = some out ∧
      (true = true → ([50] : List Nat) ≠ [51] → out = WinPatchOutcome.warned) :=
  claim2_untouched_unless_found true [50] [51] ⟨some [1, 2], none⟩ [1, 2] rfl
    (Or.inr (by decide))

theorem claim3_backup_before_replace_witness :
    tmpLookup ([("app.asar.backup", [9, 9])] : List (String × List Nat)) "app.asar.backup"
      = some [9, 9] ∧
    tmpLookup ([("app.asar.backup", [9, 9]), ("appDevTools.asar", [1, 2, 3])] :
        List (String × List Nat)) "app.asar.backup" = some [9, 9] :=
  ⟨(claim3_backup_before_replace
      ⟨Platform.linux, PatchType.default, true, false, false, true, [],
        ⟨[⟨"app.asar.gz", "u", 3⟩]⟩,
        fun _ => some [10, 20, 30], fun _ => some [1, 2, 3, 4], fun _ => []⟩
      ⟨some [9, 9], none, none, []⟩ [9, 9] rfl).1
      ⟨some [1, 2, 3, 4], none, none, [("app.asar.backup", [9, 9])]⟩ (by decide),
    (claim3_backup_before_replace
      ⟨Platform.linux, PatchType.devtoolsOnly, false, true, false, true, [],
        ⟨[⟨"appDevTools.asar", "u", 3⟩]⟩,
        fun _ => some [1, 2, 3], fun _ => none, fun _ => []⟩
      ⟨some [9, 9], none, none, []⟩ [9, 9] rfl).2.2.1
      ⟨some [9, 9], none, none,
        [("app.asar.backup", [9, 9]), ("appDevTools.asar", [1, 2, 3])]⟩ (by decide)⟩

theorem claim4_process_gate_witness :
    patch
      ⟨Platform.win32, PatchType.default, true, true, false, true, [1234],
        ⟨[⟨"app.asar.gz", "u", 3⟩]⟩, fun _ => none, fun _ => none, fun _ => []⟩
      ⟨some [9, 9], none, none, []⟩ =
    PatchOutcome.err PatchError.processRunning ⟨some [9, 9], none, none, []⟩ :=
  claim4_process_gate
    ⟨Platform.win32, PatchType.default, true, true, false, true, [1234],
      ⟨[⟨"app.asar.gz", "u", 3⟩]⟩, fun _ => none, fun _ => none, fun _ => []⟩
    ⟨some [9, 9], none, none, []⟩ (by decide) rfl (by decide) rfl

theorem claim6_cache_correctness_witness :
    (downloadModFiles
      ⟨Platform.linux, PatchType.default, true, true, false, true, [],
        ⟨[⟨"app.asar.gz", "u", 4⟩]⟩, fun _ => none, fun _ => some [1, 2], fun _ => []⟩
      ⟨some [9], none, none, [("app.asar.gz", [7, 7, 7, 7])]⟩).1 = false ∧
    (downloadModFiles
      ⟨Platform.linux, PatchType.default, true, true, false, true, [],
        ⟨[⟨"app.asar.gz", "u", 4⟩]⟩, fun _ => none, fun _ => some [1, 2], fun _ => []⟩
      ⟨some [9], none, none, [("app.asar.gz", [7, 7, 7, 7])]⟩).2 =
      Except.ok ⟨some [9], none, none,
        tmpWrite [("app.asar.gz", [7, 7, 7, 7])] "app.asar" [1, 2]⟩ := by
  have h := claim6_cache_correctness
    ⟨Platform.linux, PatchType.default, true, true, false, true, [],
      ⟨[⟨"app.asar.gz", "u", 4⟩]⟩, fun _ => none, fun _ => some [1, 2], fun _ => []⟩
    ⟨"app.asar.gz", "u", 4⟩
    ⟨some [9], none, none, [("app.asar.gz", [7, 7, 7, 7])]⟩ [7, 7, 7, 7]
    (by decide) rfl (by decide)
  exact ⟨(h.1 rfl).1, (h.1 rfl).2.2.2 [1, 2] (by decide) rfl⟩

theorem claim7_asset_resolution_witness :
    ∃ a, resolveAsset [⟨"app.asar", "u1", 5⟩, ⟨"app.asar.gz", "u2", 3⟩] PatchType.default
        = some a ∧
      a ∈ ([⟨"app.asar", "u1", 5⟩, ⟨"app.asar.gz", "u2", 3⟩] : List ReleaseAsset) ∧
      a.name = assetBaseName PatchType.default ++ ".gz" :=
  (claim7_asset_resolution [⟨"app.asar", "u1", 5⟩, ⟨"app.asar.gz", "u2", 3⟩]
    PatchType.default).1 ⟨⟨"app.asar.gz", "u2", 3⟩, by decide, by decide⟩

theorem claim8_process_enumeration_witness :
    getYandexMusicProcesses true none = [] ∧ (0 : Int) < 1234 :=
  ⟨(claim8_process_enumeration true none).1 rfl,
    (claim8_process_enumeration true
      (some "\x22YM.exe\x22,\x221234\x22,\x22Console\x22\nbad\n")).2 1234 (by decide)⟩

theorem claim9_backup_never_overwritten_witness :
    (bypassIntegrityWin true [50] [51] ⟨some [50], some [1]⟩).1.backup = some [1] :=
  claim9_backup_never_overwritten true [50] [51] ⟨some [50], some [1]⟩ [1] rfl

theorem claim10_loop_terminates_witness :
    ∃ r, replaceLoop [50] [51] (([50, 2, 50] : List Nat).length + 1) [50, 2, 50] 0 = some r :=
  claim10_loop_terminates [50] [51] [50, 2, 50] (by decide)

end Ymmp
